import Mathlib

/-!
Verification of the timer/state-machine core of the `tomate` Pomodoro CLI.

The development shallowly embeds the Rust sources:
* instants (`chrono::DateTime<Local>`) are modeled as unix timestamps (`Int`,
  seconds); `DateTime` equality in chrono compares instants, so this is the
  faithful notion of equality for round-trip statements;
* spans (`chrono::TimeDelta`) are modeled as signed second counts (`Int`);
  every `TimeDelta` the program builds has a zero nanosecond part
  (`TimeDelta::new(secs, 0)`), so seconds-granularity is exact;
* strings are modeled as `List Char`;
* the state file and the history file are modeled by the `Sys` structure;
  reading a missing file / parse failures are `none` / `Except.error`;
* hook execution (`hooks.rs`) spawns child processes and never alters the
  state or history files; the claims do not mention hooks, so hook calls are
  not modeled.
-/

/-- Strings of the embedding: a Rust `String` as its character list. -/
abbrev Str := List Char

/-- Coerce a Lean string literal to the embedding's string type. -/
def str (s : String) : Str := s.data

/-- Decimal digit characters, as produced by Rust's `{}` integer formatting. -/
def digitChar : Nat → Char
  | 0 => '0' | 1 => '1' | 2 => '2' | 3 => '3' | 4 => '4'
  | 5 => '5' | 6 => '6' | 7 => '7' | 8 => '8' | 9 => '9'
  | _ => '*'

/-- Test for a decimal digit character. -/
def isDig (c : Char) : Bool := 48 ≤ c.toNat && c.toNat ≤ 57

/-- Numeric value of a digit character. -/
def charVal (c : Char) : Nat := c.toNat - 48

/-- Fuel-driven decimal rendering of a natural number (least digit computed
first, accumulated on the right).  The fuel `n + 1` always suffices. -/
def natToCharsCore : Nat → Nat → Str → Str
  | 0, _, acc => acc
  | fuel + 1, n, acc =>
    if n < 10 then digitChar n :: acc
    else natToCharsCore fuel (n / 10) (digitChar (n % 10) :: acc)

/-- Decimal rendering of a natural number, e.g. `1500 ↦ "1500"`.
Models Rust's `{}` formatting of a nonnegative integer. -/
def natToChars (n : Nat) : Str := natToCharsCore (n + 1) n []

/-- Specification twin of `natToChars` by well-founded recursion; used in
proofs (`natToChars` itself is kept fuel-driven so that the kernel can
evaluate it). -/
def digitsOf (n : Nat) : Str :=
  if _h : n < 10 then [digitChar n]
  else digitsOf (n / 10) ++ [digitChar (n % 10)]
decreasing_by exact Nat.div_lt_self (by omega) (by omega)

/-- Decimal rendering of an integer: `-` sign followed by the digits.
Models Rust's `{}` formatting of an `i64`. -/
def intToChars (i : Int) : Str :=
  if i < 0 then '-' :: natToChars i.natAbs else natToChars i.natAbs

/-- Parse a nonempty all-digit string as a natural number. -/
def charsToNat? (l : Str) : Option Nat :=
  if l ≠ [] ∧ l.all isDig then
    some (l.foldl (fun acc c => 10 * acc + charVal c) 0)
  else none

/-- Parse an optionally `-`-signed decimal string as an integer. -/
def charsToInt? (l : Str) : Option Int :=
  if l.head? = some '-' then (charsToNat? l.tail).map (fun n => -(n : Int))
  else (charsToNat? l).map (fun n => (n : Int))

/-- Rust's `Ord::clamp(self, min, max)` on integers: `min` if below, `max` if
above, identity otherwise.  (Rust panics when `min > max`; the claims only
use clamping with `min = 0 ≤ max`, where this model is exact.) -/
def rustClamp (x lo hi : Int) : Int :=
  if x < lo then lo else if hi < x then hi else x

/-- `Timer { started_at, duration }` from `src/time/mod.rs`: a start instant
(unix seconds) plus a span (seconds). -/
structure Timer where
  started_at : Int
  duration : Int
deriving DecidableEq, Repr

/-- `Timer::ends_at`: `started_at + duration`. -/
def Timer.ends_at (t : Timer) : Int := t.started_at + t.duration

/-- `Timer::elapsed(now)`: `(now - started_at).clamp(zero, duration)`. -/
def Timer.elapsed (t : Timer) (now : Int) : Int :=
  rustClamp (now - t.started_at) 0 t.duration

/-- `Timer::remaining(now)`: `(duration - elapsed(now)).clamp(zero, duration)`. -/
def Timer.remaining (t : Timer) (now : Int) : Int :=
  rustClamp (t.duration - t.elapsed now) 0 t.duration

/-- `Timer::done(now)`: `now > ends_at()` (strict). -/
def Timer.done (t : Timer) (now : Int) : Bool := t.ends_at < now

/-- chrono's `TimeDelta::num_seconds` on a zero-nanosecond delta. -/
def num_seconds (d : Int) : Int := d

/-- chrono's `TimeDelta::num_minutes`: whole minutes, truncating toward zero. -/
def num_minutes (d : Int) : Int := Int.tdiv d 60

/-- chrono's `TimeDelta::num_hours`: whole hours, truncating toward zero. -/
def num_hours (d : Int) : Int := Int.tdiv d 3600

/-- Rust's `{:02}` formatting: pad the rendered integer with `'0'` on the
left up to width 2 (a sign character counts toward the width). -/
def pad2 (n : Int) : Str :=
  let s := intToChars n
  if s.length < 2 then '0' :: s else s

/-- `TimeDeltaExt::to_kitchen` from `src/time/mod.rs`, verbatim:
`hours = num_hours`, `minutes = num_minutes - hours * 60`,
`seconds = num_seconds - minutes * 60` (note: `minutes`, not `num_minutes`),
rendered as `hh:mm:ss` when `hours > 0`, else `mm:ss`. -/
def to_kitchen (d : Int) : Str :=
  let hours := num_hours d
  let minutes := num_minutes d - hours * 60
  let seconds := num_seconds d - minutes * 60
  if 0 < hours then
    pad2 hours ++ ':' :: pad2 minutes ++ ':' :: pad2 seconds
  else
    pad2 minutes ++ ':' :: pad2 seconds

namespace MainRs

/-- The `Pomodoro` struct private to `src/main.rs` (an older in-binary copy of
the library's session type). -/
structure Pomodoro where
  started_at : Int
  duration : Int
  description : Option Str
  tags : Option (List Str)
deriving DecidableEq, Repr

/-- `Pomodoro::done` from `src/main.rs` lines 436-438:
`now >= (self.started_at + self.duration)` — non-strict. -/
def Pomodoro.done (p : Pomodoro) (now : Int) : Bool :=
  p.started_at + p.duration ≤ now

end MainRs

/-- chrono's `Display for TimeDelta` restricted to zero nanoseconds, which is
how `Timer`'s `Into<String>` renders the duration (`"{}/{}"`):
sign, `P`, then `{days}D` when the day count is nonzero, then `T{secs}S`
when the second remainder is nonzero or there is no date part.  In
particular `1500 ↦ "PT1500S"` but `86400 ↦ "P1D"`. -/
def timeDeltaDisplay (secs : Int) : Str :=
  let sign : Str := if secs < 0 then ['-'] else []
  let a : Nat := secs.natAbs
  let days : Nat := a / 86400
  let rem : Nat := a % 86400
  sign ++ 'P' ::
    ((if days ≠ 0 then natToChars days ++ ['D'] else []) ++
      (if rem ≠ 0 ∨ days = 0 then 'T' :: natToChars rem ++ ['S'] else []))

/-- `TimeDeltaExt::from_iso8601`: accept exactly the strings matched by
`^PT([0-9]+)S$` and return the captured second count. -/
def fromIso8601 (l : Str) : Option Int :=
  match l with
  | 'P' :: 'T' :: rest =>
    if rest.getLast? = some 'S' then
      (charsToNat? rest.dropLast).map (fun n => (n : Int))
    else none
  | _ => none

/-- Rust's `splitn(2, "/")` skeleton: the part before the first occurrence of
`c`, and — when `c` occurs — everything after it. -/
def splitFirst (c : Char) : Str → Str × Option Str
  | [] => ([], none)
  | x :: xs =>
    if x = c then ([], some xs)
    else
      let p := splitFirst c xs
      (x :: p.1, p.2)

/-- chrono's `DateTime<Local>::to_rfc3339`, abstracted: the claims never
inspect the glyphs of a rendered instant, only that rendering is injective,
round-trips through chrono's datetime parser, and contains neither `/` nor
`%`; all of which hold of RFC 3339 text.  Instants being unix timestamps in
this model, rendering is their decimal form. -/
def rfc3339 (t : Int) : Str := intToChars t

/-- chrono's datetime parse (`str::parse::<DateTime<Local>>`), the inverse
abstraction of `rfc3339`. -/
def parseDateTime (l : Str) : Option Int := charsToInt? l

/-- `Display for Timer`: `"{}/{}"` of the RFC 3339 start and the duration. -/
def Timer.render (t : Timer) : Str :=
  rfc3339 t.started_at ++ '/' :: timeDeltaDisplay t.duration

/-- `FromStr for Timer`: split at the first `/`, parse the datetime part and
the `PT…S` duration part (`splitn(2, "/")`). -/
def Timer.fromChars (l : Str) : Option Timer :=
  match splitFirst '/' l with
  | (a, some b) =>
    match parseDateTime a, fromIso8601 b with
    | some dt, some dur => some ⟨dt, dur⟩
    | _, _ => none
  | (_, none) => none

/-- `Pomodoro` from `src/lib.rs`: a timer plus optional description and tags. -/
structure Pomodoro where
  timer : Timer
  description : Option Str
  tags : Option (List Str)
deriving DecidableEq, Repr

/-- `Status` from `src/lib.rs`: the four-variant current-activity sum type. -/
inductive Status where
  | inactive
  | active (pom : Pomodoro)
  | shortBreak (timer : Timer)
  | longBreak (timer : Timer)
deriving DecidableEq, Repr

/-- Serialized form of a `Pomodoro` as a TOML table: the timer rendered by
`Timer`'s `Into<String>` plus the optional fields.  The TOML layer itself
(escaping, key syntax) is serde-derived in the source and injective, so it
is kept structural here; the strings produced by the repository's own code
(`Display for Timer`) are modeled at character level. -/
structure PomRepr where
  timer : Str
  description : Option Str
  tags : Option (List Str)
deriving DecidableEq, Repr

/-- Serialized contents of the state file: exactly one variant's table. -/
inductive StateRepr where
  | active (pom : PomRepr)
  | shortBreak (timer : Str)
  | longBreak (timer : Str)
deriving DecidableEq, Repr

/-- Serialize a `Pomodoro` (its TOML table form). -/
def Pomodoro.toRepr (p : Pomodoro) : PomRepr :=
  ⟨p.timer.render, p.description, p.tags⟩

/-- The serialized form `Status::save` writes; `none` for `Inactive`, which
is never written (its save deletes the file instead). -/
def Status.toRepr? : Status → Option StateRepr
  | .inactive => none
  | .active p => some (.active p.toRepr)
  | .shortBreak t => some (.shortBreak t.render)
  | .longBreak t => some (.longBreak t.render)

/-- Deserialize the state file contents back into a `Status` (the
`toml::from_str` + `TryFrom<String> for Timer` composite). -/
def StateRepr.parse : StateRepr → Option Status
  | .active pr =>
    (Timer.fromChars pr.timer).map
      (fun tm => Status.active ⟨tm, pr.description, pr.tags⟩)
  | .shortBreak t => (Timer.fromChars t).map Status.shortBreak
  | .longBreak t => (Timer.fromChars t).map Status.longBreak

/-- `Status::load`: an absent file is `Inactive`; a present file is parsed,
`none` modeling the fatal parse error. -/
def Status.load : Option StateRepr → Option Status
  | none => some Status.inactive
  | some r => r.parse

/-- `Status::save` (src/lib.rs lines 37-67), acting on the current state-file
contents: saving `Inactive` calls `remove_file` unconditionally, which errors
when no file exists; any other variant (re)writes its serialized form. -/
def Status.save (s : Status) (file : Option StateRepr) :
    Except Str (Option StateRepr) :=
  match s.toRepr? with
  | none =>
    match file with
    | none => .error (str "No such file or directory")
    | some _ => .ok none
  | some r => .ok (some r)

/-- The files the core manipulates: the state file (contents, or `none` when
absent) and the history file (the list of appended Pomodoro records). -/
structure Sys where
  stateFile : Option StateRepr
  historyFile : List PomRepr
deriving DecidableEq, Repr

/-- `clear` (src/lib.rs lines 218-232): delete the state file only if it
exists; a no-op success otherwise.  (The stop hook fired in the
existing-file branch is an external process, not modeled.) -/
def clear (sys : Sys) : Sys × Except Str Unit :=
  match sys.stateFile with
  | some _ => ({ sys with stateFile := none }, .ok ())
  | none => (sys, .ok ())

/-- `start` (src/lib.rs lines 138-154): load, reject unless `Inactive`, then
persist `Active(pomodoro)` and return the new status. -/
def start (pomodoro : Pomodoro) (sys : Sys) : Sys × Except Str Status :=
  match Status.load sys.stateFile with
  | none => (sys, .error (str "Failed to parse state file"))
  | some (Status.shortBreak _) =>
    (sys, .error (str "You're currently taking a break!"))
  | some (Status.longBreak _) =>
    (sys, .error (str "You're currently taking a break!"))
  | some (Status.active _) =>
    (sys, .error (str "There is already an unfinished Pomodoro"))
  | some Status.inactive =>
    match Status.save (Status.active pomodoro) sys.stateFile with
    | .error e => (sys, .error e)
    | .ok f => ({ sys with stateFile := f }, .ok (Status.active pomodoro))

/-- `take_short_break` (src/lib.rs lines 156-172): load, reject unless
`Inactive`, then persist `ShortBreak(timer)`. -/
def take_short_break (timer : Timer) (sys : Sys) : Sys × Except Str Unit :=
  match Status.load sys.stateFile with
  | none => (sys, .error (str "Failed to parse state file"))
  | some (Status.active _) =>
    (sys, .error (str "Finish your current timer before taking a break"))
  | some (Status.shortBreak _) =>
    (sys, .error (str "You are already taking a break"))
  | some (Status.longBreak _) =>
    (sys, .error (str "You are already taking a break"))
  | some Status.inactive =>
    match Status.save (Status.shortBreak timer) sys.stateFile with
    | .error e => (sys, .error e)
    | .ok f => ({ sys with stateFile := f }, .ok ())

/-- `take_long_break` (src/lib.rs lines 174-190), verbatim: its `Inactive`
arm constructs `Status::ShortBreak(timer.clone())` (line 182) — the
`ShortBreak` variant — before saving. -/
def take_long_break (timer : Timer) (sys : Sys) : Sys × Except Str Unit :=
  match Status.load sys.stateFile with
  | none => (sys, .error (str "Failed to parse state file"))
  | some (Status.active _) =>
    (sys, .error (str "Finish your current timer before taking a break"))
  | some (Status.shortBreak _) =>
    (sys, .error (str "You are already taking a break"))
  | some (Status.longBreak _) =>
    (sys, .error (str "You are already taking a break"))
  | some Status.inactive =>
    match Status.save (Status.shortBreak timer) sys.stateFile with
    | .error e => (sys, .error e)
    | .ok f => ({ sys with stateFile := f }, .ok ())

/-- `long_break::start`'s state transition (src/long_break.rs lines 11-31),
the newer module: its `Inactive` arm constructs `Status::LongBreak(timer)`
(the systemd scheduling that follows touches neither file). -/
def long_break_start (timer : Timer) (sys : Sys) : Sys × Except Str Unit :=
  match Status.load sys.stateFile with
  | none => (sys, .error (str "Failed to parse state file"))
  | some (Status.active _) =>
    (sys, .error (str "Finish your current timer before taking a break"))
  | some (Status.shortBreak _) =>
    (sys, .error (str "You are already taking a break"))
  | some (Status.longBreak _) =>
    (sys, .error (str "You are already taking a break"))
  | some Status.inactive =>
    match Status.save (Status.longBreak timer) sys.stateFile with
    | .error e => (sys, .error e)
    | .ok f => ({ sys with stateFile := f }, .ok ())

/-- `finish` (src/lib.rs lines 201-216): `Inactive` is rejected; a break is
cleared without touching history; an active Pomodoro is appended to the
history file (`History::append`) and then cleared. -/
def finish (sys : Sys) : Sys × Except Str Unit :=
  match Status.load sys.stateFile with
  | none => (sys, .error (str "Failed to parse state file"))
  | some Status.inactive =>
    (sys, .error (str "No active Pomodoro. Start one with \"tomate start\""))
  | some (Status.shortBreak _) => clear sys
  | some (Status.longBreak _) => clear sys
  | some (Status.active pom) =>
    clear { sys with historyFile := sys.historyFile ++ [pom.toRepr] }

/-- Boolean substring test (used to state "the error contains …"). -/
def containsSub (needle : Str) : Str → Bool
  | [] => needle.isEmpty
  | c :: rest => needle.isPrefixOf (c :: rest) || containsSub needle rest

/-- Rust's `[String]::join(",")`. -/
def joinComma : List Str → Str
  | [] => []
  | [x] => x
  | x :: y :: xs => x ++ ',' :: joinComma (y :: xs)

/-- Rust's `str::replace` specialized to the two-character patterns `"%x"`
used by `Pomodoro::format`: scan left to right, rewrite each non-overlapping
occurrence of `'%', x` to `rep` (the replacement is not rescanned). -/
def replace2 (x : Char) (rep : Str) : Str → Str
  | [] => []
  | c :: rest =>
    match rest with
    | [] => [c]
    | y :: rest2 =>
      if c = '%' ∧ y = x then rep ++ replace2 x rep rest2
      else c :: replace2 x rep (y :: rest2)

/-- A chain of `str::replace` calls, one per `(token char, value)` pair, in
list order — the shape of the `Pomodoro::format` body. -/
def seqChain (l : List (Char × Str)) (s : Str) : Str :=
  l.foldl (fun acc t => replace2 t.1 t.2 acc) s

/-- Modelled from the spec: simultaneous (single-pass) substitution of the
token set — "replacing each occurrence of the tokens … by the corresponding
value while leaving every other character … unchanged", with substituted
values never rescanned.  Compared against the sequential `Pomodoro.format`. -/
def simul2 (toks : List (Char × Str)) : Str → Str
  | [] => []
  | c :: rest =>
    match rest with
    | [] => [c]
    | y :: rest2 =>
      if c = '%' then
        match toks.find? (fun t => t.1 == y) with
        | some t => t.2 ++ simul2 toks rest2
        | none => c :: simul2 toks (y :: rest2)
      else c :: simul2 toks (y :: rest2)

/-- The eight token/value pairs of `Pomodoro::format` (src/lib.rs lines
116-135), in source order: `%d` description (empty default), `%t` tags
joined by commas, `%r`/`%R` remaining time (kitchen / whole seconds),
`%s`/`%S` start (RFC 3339 / unix), `%e`/`%E` end (RFC 3339 / unix). -/
def Pomodoro.fmtValues (p : Pomodoro) (now : Int) : List (Char × Str) :=
  [('d', p.description.getD []),
   ('t', joinComma (p.tags.getD [])),
   ('r', to_kitchen (p.timer.remaining now)),
   ('R', intToChars (p.timer.remaining now)),
   ('s', rfc3339 p.timer.started_at),
   ('S', intToChars p.timer.started_at),
   ('e', rfc3339 p.timer.ends_at),
   ('E', intToChars p.timer.ends_at)]

/-- `Pomodoro::format`: the eight `.replace` calls applied sequentially. -/
def Pomodoro.format (p : Pomodoro) (f : Str) (now : Int) : Str :=
  seqChain (p.fmtValues now) f

/-- Modelled from the spec: `format` as order-independent simultaneous
substitution of the same token set. -/
def specFormat (p : Pomodoro) (f : Str) (now : Int) : Str :=
  simul2 (p.fmtValues now) f

/-- No two consecutive `%` characters. -/
def noPctPct : Str → Bool
  | [] => true
  | [_] => true
  | a :: b :: rest => !(a == '%' && b == '%') && noPctPct (b :: rest)

/-- Each timer duration inside the status lies in `[0, 86400)` seconds, the
range chrono's `Display for TimeDelta` renders as `PT{secs}S` (outside it
the rendering has a day component that `from_iso8601` rejects). -/
def Status.durationSmall : Status → Prop
  | .inactive => True
  | .active p => 0 ≤ p.timer.duration ∧ p.timer.duration < 86400
  | .shortBreak t => 0 ≤ t.duration ∧ t.duration < 86400
  | .longBreak t => 0 ≤ t.duration ∧ t.duration < 86400

/-!
Theorems.  First the decimal-rendering facts backing the persistence
round-trip, then the claim theorems.
-/

theorem natToCharsCore_eq_digitsOf :
    ∀ (fuel n : Nat) (acc : Str), n < fuel →
      natToCharsCore fuel n acc = digitsOf n ++ acc := by
  intro fuel
  induction fuel with
  | zero => intro n acc h; omega
  | succ f ih =>
    intro n acc h
    by_cases h10 : n < 10
    · rw [natToCharsCore, if_pos h10, digitsOf, dif_pos h10]
      rfl
    · rw [natToCharsCore, if_neg h10, digitsOf, dif_neg h10,
        ih (n / 10) _ (by omega), List.append_assoc]
      rfl

theorem natToChars_eq_digitsOf (n : Nat) : natToChars n = digitsOf n := by
  rw [natToChars, natToCharsCore_eq_digitsOf (n + 1) n [] (by omega),
    List.append_nil]

theorem charVal_digitChar (m : Nat) (h : m < 10) : charVal (digitChar m) = m := by
  interval_cases m <;> rfl

theorem isDig_digitChar (m : Nat) (h : m < 10) : isDig (digitChar m) = true := by
  interval_cases m <;> rfl

theorem digitsOf_ne_nil (n : Nat) : digitsOf n ≠ [] := by
  rw [digitsOf]
  split <;> simp

theorem mem_digitsOf_isDig (n : Nat) : ∀ c ∈ digitsOf n, isDig c = true := by
  induction n using Nat.strong_induction_on with
  | _ n ih =>
    intro c hc
    rw [digitsOf] at hc
    by_cases h10 : n < 10
    · rw [dif_pos h10] at hc
      simp at hc
      subst hc
      exact isDig_digitChar n h10
    · rw [dif_neg h10] at hc
      rcases List.mem_append.mp hc with h | h
      · exact ih (n / 10) (Nat.div_lt_self (by omega) (by omega)) c h
      · simp at h
        subst h
        exact isDig_digitChar _ (Nat.mod_lt _ (by omega))

theorem foldl_digitsOf (n : Nat) : ∀ a : Nat,
    (digitsOf n).foldl (fun acc c => 10 * acc + charVal c) a =
      a * 10 ^ (digitsOf n).length + n := by
  induction n using Nat.strong_induction_on with
  | _ n ih =>
    intro a
    by_cases h10 : n < 10
    · rw [digitsOf, dif_pos h10]
      simp [List.foldl, charVal_digitChar n h10]
      ring
    · rw [digitsOf, dif_neg h10, List.foldl_append,
        ih (n / 10) (Nat.div_lt_self (by omega) (by omega)) a]
      simp [List.foldl, charVal_digitChar _ (Nat.mod_lt n (by omega)),
        List.length_append]
      have hdm : 10 * (n / 10) + n % 10 = n := by omega
      generalize (digitsOf (n / 10)).length = L
      calc 10 * (a * 10 ^ L + n / 10) + n % 10
        = a * (10 ^ L * 10) + (10 * (n / 10) + n % 10) := by ring
      _ = a * 10 ^ (L + 1) + n := by rw [hdm, pow_succ]

theorem charsToNat?_digitsOf (n : Nat) : charsToNat? (digitsOf n) = some n := by
  rw [charsToNat?, if_pos]
  · rw [foldl_digitsOf n 0]
    simp
  · refine ⟨digitsOf_ne_nil n, ?_⟩
    rw [List.all_eq_true]
    exact mem_digitsOf_isDig n

theorem charsToNat?_natToChars (n : Nat) : charsToNat? (natToChars n) = some n := by
  rw [natToChars_eq_digitsOf]
  exact charsToNat?_digitsOf n

theorem mem_natToChars_isDig (n : Nat) : ∀ c ∈ natToChars n, isDig c = true := by
  rw [natToChars_eq_digitsOf]
  exact mem_digitsOf_isDig n

theorem not_mem_natToChars (c : Char) (n : Nat) (hc : isDig c = false) :
    c ∉ natToChars n := by
  intro hmem
  rw [mem_natToChars_isDig n c hmem] at hc
  cases hc

theorem not_mem_intToChars (c : Char) (i : Int) (hc : isDig c = false)
    (hdash : c ≠ '-') : c ∉ intToChars i := by
  rw [intToChars]
  split
  · intro hmem
    rcases List.mem_cons.mp hmem with h | h
    · exact hdash h
    · exact not_mem_natToChars c _ hc h
  · exact not_mem_natToChars c _ hc

theorem charsToInt?_intToChars (i : Int) : charsToInt? (intToChars i) = some i := by
  by_cases hneg : i < 0
  · rw [intToChars, if_pos hneg, charsToInt?]
    simp only [List.head?_cons, if_true, eq_self_iff_true]
    simp only [List.tail_cons, charsToNat?_natToChars]
    simp [-Int.natCast_natAbs]
    omega
  · rw [intToChars, if_neg hneg, charsToInt?, if_neg, charsToNat?_natToChars]
    · simp [-Int.natCast_natAbs]
      omega
    · cases hl : natToChars i.natAbs with
      | nil => exact absurd (natToChars_eq_digitsOf _ ▸ hl) (digitsOf_ne_nil _)
      | cons c rest =>
        have hdig : isDig c = true :=
          mem_natToChars_isDig _ c (hl ▸ List.mem_cons_self c rest)
        simp only [List.head?_cons, Option.some.injEq]
        intro h
        subst h
        simp [isDig] at hdig

theorem splitFirst_append (c : Char) (b : Str) : ∀ a : Str, c ∉ a →
    splitFirst c (a ++ c :: b) = (a, some b) := by
  intro a
  induction a with
  | nil => intro _; simp [splitFirst]
  | cons x xs ih =>
    intro h
    have hx : x ≠ c := fun hxc => h (hxc ▸ List.mem_cons_self x xs)
    have hxs : c ∉ xs := fun hmem => h (List.mem_cons_of_mem x hmem)
    simp only [List.cons_append, splitFirst, if_neg hx, List.append_eq, ih hxs]

theorem timeDeltaDisplay_small (d : Int) (h0 : 0 ≤ d) (h1 : d < 86400) :
    timeDeltaDisplay d = 'P' :: 'T' :: natToChars d.natAbs ++ ['S'] := by
  have hn : d.natAbs < 86400 := by omega
  rw [timeDeltaDisplay]
  simp only [if_neg (by omega : ¬ d < 0), Nat.div_eq_of_lt hn,
    Nat.mod_eq_of_lt hn]
  simp

theorem fromIso8601_natToChars (n : Nat) :
    fromIso8601 ('P' :: 'T' :: natToChars n ++ ['S']) = some n := by
  show fromIso8601 ('P' :: 'T' :: (natToChars n ++ ['S'])) = some n
  rw [fromIso8601]
  rw [if_pos (List.getLast?_concat _), List.dropLast_concat,
    charsToNat?_natToChars]
  rfl

theorem Timer.fromChars_render (t : Timer) (h0 : 0 ≤ t.duration)
    (h1 : t.duration < 86400) : Timer.fromChars t.render = some t := by
  have hsl : '/' ∉ intToChars t.started_at :=
    not_mem_intToChars '/' t.started_at (by decide) (by decide)
  have hsplit : splitFirst '/' t.render =
      (intToChars t.started_at, some (timeDeltaDisplay t.duration)) := by
    rw [Timer.render, rfc3339]
    exact splitFirst_append '/' _ _ hsl
  have hdt : parseDateTime (intToChars t.started_at) = some t.started_at :=
    charsToInt?_intToChars _
  have hdur : fromIso8601 (timeDeltaDisplay t.duration) =
      some ((t.duration.natAbs : Nat) : Int) := by
    rw [timeDeltaDisplay_small t.duration h0 h1]
    exact fromIso8601_natToChars _
  have habs : ((t.duration.natAbs : Nat) : Int) = t.duration := by omega
  simp only [Timer.fromChars, hsplit, hdt, hdur, habs]

theorem StateRepr_parse_toRepr (s : Status) (r : StateRepr)
    (hr : s.toRepr? = some r) (hd : s.durationSmall) :
    StateRepr.parse r = some s := by
  cases s with
  | inactive => simp [Status.toRepr?] at hr
  | active p =>
    rw [Status.toRepr?] at hr
    injection hr with hr
    subst hr
    rcases hd with ⟨hd0, hd1⟩
    rw [StateRepr.parse]
    simp only [Pomodoro.toRepr, Timer.fromChars_render p.timer hd0 hd1,
      Option.map_some']
  | shortBreak t =>
    rw [Status.toRepr?] at hr
    injection hr with hr
    subst hr
    rcases hd with ⟨hd0, hd1⟩
    rw [StateRepr.parse]
    simp [Timer.fromChars_render t hd0 hd1]
  | longBreak t =>
    rw [Status.toRepr?] at hr
    injection hr with hr
    subst hr
    rcases hd with ⟨hd0, hd1⟩
    rw [StateRepr.parse]
    simp [Timer.fromChars_render t hd0 hd1]

/-- C3 (amended): round-trip persistence holds for every non-`Inactive`
status whose timer duration lies in `[0, 86400)` seconds — the range chrono
renders as `PT{secs}S`, which `from_iso8601` can read back — including
`Active` with and without description/tags; and loading from an absent
state file yields `Inactive`. -/
theorem c3_roundtrip :
    (∀ (s : Status) (file : Option StateRepr) (r : StateRepr),
      Status.save s file = .ok (some r) → s.durationSmall →
      Status.load (some r) = some s) ∧
    Status.load none = some Status.inactive := by
  constructor
  · intro s file r hsave hdur
    have hrepr : s.toRepr? = some r := by
      rw [Status.save.eq_def] at hsave
      cases htr : s.toRepr? with
      | none =>
        rw [htr] at hsave
        cases file <;> simp_all
      | some r' =>
        rw [htr] at hsave
        simp_all
    exact StateRepr_parse_toRepr s r hrepr hdur
  · rfl

/-- C3 (counterexample): a `ShortBreak` of exactly one day saves to the
timer string `0/P1D` (chrono renders 86400 s with a day component), which
`from_iso8601` rejects, so loading does not give back the saved status. -/
theorem c3_counterexample :
    Status.save (Status.shortBreak ⟨0, 86400⟩) none =
      .ok (some (StateRepr.shortBreak (str "0/P1D"))) ∧
    Status.load (some (StateRepr.shortBreak (str "0/P1D"))) = none ∧
    Status.load (some (StateRepr.shortBreak (str "0/P1D"))) ≠
      some (Status.shortBreak ⟨0, 86400⟩) := by
  refine ⟨rfl, rfl, by decide⟩

/-- Witness for C3: a concrete `Active` status with description and tags
round-trips through save and load. -/
theorem c3_witness :
    Status.save
        (Status.active ⟨⟨-3, 1500⟩, some (str "write spec"),
          some [str "a", str "b"]⟩) none =
      .ok (some (StateRepr.active ⟨str "-3/PT1500S", some (str "write spec"),
          some [str "a", str "b"]⟩)) ∧
    Status.load (some (StateRepr.active ⟨str "-3/PT1500S",
        some (str "write spec"), some [str "a", str "b"]⟩)) =
      some (Status.active ⟨⟨-3, 1500⟩, some (str "write spec"),
          some [str "a", str "b"]⟩) :=
  ⟨rfl,
    c3_roundtrip.1
      (Status.active ⟨⟨-3, 1500⟩, some (str "write spec"),
        some [str "a", str "b"]⟩)
      none _ rfl ⟨by decide, by decide⟩⟩

/-- C1 (amended): the state machine rejects illegal transitions without
touching the files: on a loaded `Active` status, `start` fails with an
error containing "already an unfinished" (the exact message is "There is
already an unfinished Pomodoro") and the system is unchanged; on a loaded
`Inactive` status, `finish` fails with an error containing "No active
Pomodoro" and the system is unchanged, while `start` succeeds and persists
`Active` wrapping the given Pomodoro. -/
theorem c1_transitions (sys : Sys) (pom act : Pomodoro) :
    (Status.load sys.stateFile = some (Status.active act) →
      start pom sys =
        (sys, .error (str "There is already an unfinished Pomodoro")) ∧
      containsSub (str "already an unfinished")
        (str "There is already an unfinished Pomodoro") = true) ∧
    (Status.load sys.stateFile = some Status.inactive →
      finish sys =
        (sys, .error (str "No active Pomodoro. Start one with \"tomate start\"")) ∧
      containsSub (str "No active Pomodoro")
        (str "No active Pomodoro. Start one with \"tomate start\"") = true ∧
      start pom sys =
        ({ sys with stateFile := some (StateRepr.active pom.toRepr) },
          .ok (Status.active pom))) := by
  constructor
  · intro h
    refine ⟨?_, by decide⟩
    rw [start, h]
  · intro h
    refine ⟨?_, by decide, ?_⟩
    · rw [finish, h]
    · rw [start, h]
      rfl

/-- C1 (counterexample to the claim as stated): the `start`-on-`Active`
error message is "There is already an unfinished Pomodoro", which does not
contain the substring "already unfinished" (the article "an" intervenes). -/
theorem c1_counterexample :
    (start ⟨⟨5, 300⟩, none, none⟩
        ⟨some (StateRepr.active ⟨str "0/PT1500S", none, none⟩), []⟩).2 =
      .error (str "There is already an unfinished Pomodoro") ∧
    containsSub (str "already unfinished")
      (str "There is already an unfinished Pomodoro") = false := by
  refine ⟨rfl, by decide⟩

/-- Witness for C1: the three transitions at concrete systems. -/
theorem c1_witness :
    (start ⟨⟨5, 300⟩, none, none⟩
        ⟨some (StateRepr.active ⟨str "0/PT1500S", none, none⟩), []⟩ =
      (⟨some (StateRepr.active ⟨str "0/PT1500S", none, none⟩), []⟩,
        .error (str "There is already an unfinished Pomodoro")) ∧
      containsSub (str "already an unfinished")
        (str "There is already an unfinished Pomodoro") = true) ∧
    (finish ⟨none, []⟩ =
      (⟨none, []⟩,
        .error (str "No active Pomodoro. Start one with \"tomate start\"")) ∧
      containsSub (str "No active Pomodoro")
        (str "No active Pomodoro. Start one with \"tomate start\"") = true ∧
      start ⟨⟨5, 300⟩, none, none⟩ ⟨none, []⟩ =
        (⟨some (StateRepr.active (Pomodoro.toRepr ⟨⟨5, 300⟩, none, none⟩)), []⟩,
          .ok (Status.active ⟨⟨5, 300⟩, none, none⟩))) :=
  ⟨(c1_transitions ⟨some (StateRepr.active ⟨str "0/PT1500S", none, none⟩), []⟩
      ⟨⟨5, 300⟩, none, none⟩ ⟨⟨0, 1500⟩, none, none⟩).1 rfl,
   (c1_transitions ⟨none, []⟩ ⟨⟨5, 300⟩, none, none⟩
      ⟨⟨0, 1500⟩, none, none⟩).2 rfl⟩

/-- C4: `finish` on a loaded break (short or long) deletes the state file
and leaves the history file unchanged; `finish` on a loaded `Active` status
deletes the state file and appends exactly that Pomodoro's record to the
history file; `finish` on `Inactive` leaves the history unchanged — so only
an `Active` finish appends to history. -/
theorem c4_finish_frame (sys : Sys) (t : Timer) (pom : Pomodoro) :
    (Status.load sys.stateFile = some (Status.shortBreak t) →
      finish sys = (⟨none, sys.historyFile⟩, .ok ())) ∧
    (Status.load sys.stateFile = some (Status.longBreak t) →
      finish sys = (⟨none, sys.historyFile⟩, .ok ())) ∧
    (Status.load sys.stateFile = some (Status.active pom) →
      finish sys = (⟨none, sys.historyFile ++ [pom.toRepr]⟩, .ok ())) ∧
    (Status.load sys.stateFile = some Status.inactive →
      (finish sys).1.historyFile = sys.historyFile) := by
  refine ⟨fun h => ?_, fun h => ?_, fun h => ?_, fun h => ?_⟩
  · simp only [finish, h]
    cases hsf : sys.stateFile with
    | none => rw [hsf] at h; simp [Status.load] at h
    | some r => simp [clear, hsf]
  · simp only [finish, h]
    cases hsf : sys.stateFile with
    | none => rw [hsf] at h; simp [Status.load] at h
    | some r => simp [clear, hsf]
  · simp only [finish, h]
    cases hsf : sys.stateFile with
    | none => rw [hsf] at h; simp [Status.load] at h
    | some r => simp [clear, hsf]
  · rw [finish, h]

/-- Witness for C4: the finish transitions at concrete systems with a
nonempty history file. -/
theorem c4_witness :
    (finish ⟨some (StateRepr.shortBreak (str "0/PT300S")),
        [⟨str "0/PT1500S", none, none⟩]⟩ =
      (⟨none, [⟨str "0/PT1500S", none, none⟩]⟩, .ok ())) ∧
    (finish ⟨some (StateRepr.longBreak (str "0/PT1200S")),
        [⟨str "0/PT1500S", none, none⟩]⟩ =
      (⟨none, [⟨str "0/PT1500S", none, none⟩]⟩, .ok ())) ∧
    (finish ⟨some (StateRepr.active ⟨str "7/PT1500S", some (str "w"), none⟩),
        [⟨str "0/PT1500S", none, none⟩]⟩ =
      (⟨none, [⟨str "0/PT1500S", none, none⟩] ++
          [Pomodoro.toRepr ⟨⟨7, 1500⟩, some (str "w"), none⟩]⟩, .ok ())) :=
  ⟨(c4_finish_frame ⟨some (StateRepr.shortBreak (str "0/PT300S")),
      [⟨str "0/PT1500S", none, none⟩]⟩ ⟨0, 300⟩
      ⟨⟨0, 0⟩, none, none⟩).1 rfl,
   (c4_finish_frame ⟨some (StateRepr.longBreak (str "0/PT1200S")),
      [⟨str "0/PT1500S", none, none⟩]⟩ ⟨0, 1200⟩
      ⟨⟨0, 0⟩, none, none⟩).2.1 rfl,
   (c4_finish_frame ⟨some (StateRepr.active ⟨str "7/PT1500S", some (str "w"), none⟩),
      [⟨str "0/PT1500S", none, none⟩]⟩ ⟨0, 0⟩
      ⟨⟨7, 1500⟩, some (str "w"), none⟩).2.2.1 rfl⟩

/-- C2: evaluating the break transitions on an inactive system (absent
state file).  `take_short_break` persists the `ShortBreak` variant as
claimed, but `take_long_break` (src/lib.rs line 182) also persists the
`ShortBreak` variant — not `LongBreak` — and the state subsequently loads
as `ShortBreak`; the newer `long_break::start` persists `LongBreak`. -/
theorem c2_long_break_persists_short :
    (take_short_break ⟨0, 1200⟩ ⟨none, []⟩).1.stateFile =
      some (StateRepr.shortBreak (str "0/PT1200S")) ∧
    (take_long_break ⟨0, 1200⟩ ⟨none, []⟩).1.stateFile =
      some (StateRepr.shortBreak (str "0/PT1200S")) ∧
    (take_long_break ⟨0, 1200⟩ ⟨none, []⟩).2 = .ok () ∧
    Status.load (take_long_break ⟨0, 1200⟩ ⟨none, []⟩).1.stateFile =
      some (Status.shortBreak ⟨0, 1200⟩) ∧
    Status.load (take_long_break ⟨0, 1200⟩ ⟨none, []⟩).1.stateFile ≠
      some (Status.longBreak ⟨0, 1200⟩) ∧
    (long_break_start ⟨0, 1200⟩ ⟨none, []⟩).1.stateFile =
      some (StateRepr.longBreak (str "0/PT1200S")) := by
  refine ⟨rfl, rfl, rfl, rfl, by decide, rfl⟩

/-- C5 (amended): `Timer::done` is strict — it holds exactly when `now`
exceeds `started_at + duration`, is false at exactly `ends_at`, and true
one second later; but `Pomodoro::done` in src/main.rs is non-strict
(`now >= started_at + duration`) and already holds at exactly the end
instant. -/
theorem c5_done_boundary :
    (∀ (t : Timer) (now : Int),
      (t.done now = true ↔ t.started_at + t.duration < now) ∧
      t.done t.ends_at = false ∧
      t.done (t.ends_at + 1) = true) ∧
    (∀ (p : MainRs.Pomodoro) (now : Int),
      (p.done now = true ↔ p.started_at + p.duration ≤ now)) ∧
    (∀ p : MainRs.Pomodoro, p.done (p.started_at + p.duration) = true) := by
  refine ⟨fun t now => ⟨?_, ?_, ?_⟩, fun p now => ?_, fun p => ?_⟩ <;>
    simp [Timer.done, Timer.ends_at, MainRs.Pomodoro.done]

/-- C5 (counterexample to the claim as stated): the `done` cited from
src/main.rs (`Pomodoro::done`) is true at exactly the end instant, where
the claim's strict characterization says it must be false. -/
theorem c5_counterexample :
    MainRs.Pomodoro.done ⟨0, 1500, none, none⟩ 1500 = true ∧
    ¬ ((0 : Int) + 1500 < 1500) := by
  refine ⟨rfl, by decide⟩

/-- C6: for a timer with nonnegative duration, `elapsed(now)` is
`now - started_at` clamped to `[0, duration]`; it is `0` whenever
`now ≤ started_at` and `duration` whenever `now ≥ started_at + duration`. -/
theorem c6_elapsed_clamp (t : Timer) (now : Int) (hd : 0 ≤ t.duration) :
    t.elapsed now = max 0 (min (now - t.started_at) t.duration) ∧
    (now ≤ t.started_at → t.elapsed now = 0) ∧
    (t.started_at + t.duration ≤ now → t.elapsed now = t.duration) := by
  refine ⟨?_, fun h => ?_, fun h => ?_⟩ <;>
    (unfold Timer.elapsed rustClamp; split_ifs <;> omega)

/-- Witness for C6 at a concrete timer and instant. -/
theorem c6_witness :
    (0 : Int) ≤ 1500 ∧
    (Timer.elapsed ⟨100, 1500⟩ 400 =
        max 0 (min ((400 : Int) - 100) 1500) ∧
      ((400 : Int) ≤ 100 → Timer.elapsed ⟨100, 1500⟩ 400 = 0) ∧
      ((100 : Int) + 1500 ≤ 400 → Timer.elapsed ⟨100, 1500⟩ 400 = 1500)) :=
  ⟨by decide, c6_elapsed_clamp ⟨100, 1500⟩ 400 (by decide)⟩

/-- C7: for a timer with nonnegative duration,
`elapsed(now) + remaining(now) = duration`, exactly. -/
theorem c7_elapsed_add_remaining (t : Timer) (now : Int)
    (hd : 0 ≤ t.duration) :
    t.elapsed now + t.remaining now = t.duration := by
  unfold Timer.remaining Timer.elapsed rustClamp
  split_ifs <;> omega

/-- Witness for C7 at a concrete timer and instant. -/
theorem c7_witness :
    (0 : Int) ≤ 1500 ∧
    Timer.elapsed ⟨0, 1500⟩ 1200 + Timer.remaining ⟨0, 1500⟩ 1200 = 1500 :=
  ⟨by decide, c7_elapsed_add_remaining ⟨0, 1500⟩ 1200 (by decide)⟩

/-- C8: evaluating `to_kitchen`.  Durations under one hour render as the
claimed zero-padded `MM:SS` (300 s ↦ "05:00", 1500 s ↦ "25:00"), but at
3661 s (1 h 1 m 1 s) the code renders "01:01:3601" — the seconds field is
`num_seconds - minutes*60` with `minutes` already reduced modulo 60, so it
is not the standard decomposition "01:01:01" the claim (and the function's
own `hh:mm:ss` doc comment) requires. -/
theorem c8_kitchen_eval :
    to_kitchen 3661 = str "01:01:3601" ∧
    to_kitchen 3661 ≠ str "01:01:01" ∧
    to_kitchen 300 = str "05:00" ∧
    to_kitchen 1500 = str "25:00" := by
  refine ⟨rfl, by decide, rfl, rfl⟩

/-- C10: saving the `Inactive` variant is not idempotent: it succeeds by
deleting the state file when one exists, and errors when none exists (the
removal is attempted unconditionally); `clear`, by contrast, checks for
existence and always succeeds, leaving the state file absent. -/
theorem c10_save_inactive :
    (∀ r : StateRepr, Status.save Status.inactive (some r) = .ok none) ∧
    (∃ e, Status.save Status.inactive none = .error e) ∧
    (∀ sys : Sys, clear sys = ({ sys with stateFile := none }, .ok ())) := by
  refine ⟨fun r => rfl, ⟨str "No such file or directory", rfl⟩, fun sys => ?_⟩
  cases sys with
  | mk sf hf =>
    cases sf with
    | none => rfl
    | some r => rfl

theorem replace2_cons_of_ne (x : Char) (v : Str) (c : Char) (rest : Str)
    (hc : c ≠ '%') : replace2 x v (c :: rest) = c :: replace2 x v rest := by
  cases rest with
  | nil => rfl
  | cons y r2 => simp [replace2, hc]

theorem replace2_pct_match (x : Char) (v rest : Str) :
    replace2 x v ('%' :: x :: rest) = v ++ replace2 x v rest := by
  simp [replace2]

theorem replace2_pct_miss (x : Char) (v : Str) (y : Char) (rest : Str)
    (h : y ≠ x) :
    replace2 x v ('%' :: y :: rest) = '%' :: replace2 x v (y :: rest) := by
  simp [replace2, h]

theorem simul2_cons_of_ne (toks : List (Char × Str)) (c : Char) (rest : Str)
    (hc : c ≠ '%') : simul2 toks (c :: rest) = c :: simul2 toks rest := by
  cases rest with
  | nil => rfl
  | cons y r2 => simp [simul2, hc]

theorem simul2_pct_found (toks : List (Char × Str)) (y : Char) (rest2 : Str)
    (tk : Char × Str) (hf : toks.find? (fun t => t.1 == y) = some tk) :
    simul2 toks ('%' :: y :: rest2) = tk.2 ++ simul2 toks rest2 := by
  simp [simul2, hf]

theorem simul2_pct_none (toks : List (Char × Str)) (y : Char) (rest2 : Str)
    (hf : toks.find? (fun t => t.1 == y) = none) :
    simul2 toks ('%' :: y :: rest2) = '%' :: simul2 toks (y :: rest2) := by
  simp [simul2, hf]

theorem simul2_nil_toks : ∀ s : Str, simul2 [] s = s := by
  intro s
  induction s with
  | nil => rfl
  | cons c rest ih =>
    cases rest with
    | nil => rfl
    | cons y r2 =>
      by_cases hc : c = '%'
      · subst hc
        rw [simul2_pct_none [] y r2 rfl, ih]
      · rw [simul2_cons_of_ne [] c _ hc, ih]

theorem noPctPct_cons_of_ne (c : Char) (rest : Str) (hc : c ≠ '%')
    (h : noPctPct rest = true) : noPctPct (c :: rest) = true := by
  cases rest with
  | nil => rfl
  | cons y r2 => simp [noPctPct, hc, h]

theorem noPctPct_cons_head (c : Char) (rest : Str)
    (hhead : rest.head? ≠ some '%') (h : noPctPct rest = true) :
    noPctPct (c :: rest) = true := by
  cases rest with
  | nil => rfl
  | cons y r2 =>
    have hy : y ≠ '%' := by simpa using hhead
    simp [noPctPct, hy, h]

theorem noPctPct_tail (c : Char) (rest : Str)
    (h : noPctPct (c :: rest) = true) : noPctPct rest = true := by
  cases rest with
  | nil => rfl
  | cons y r2 =>
    simp only [noPctPct, Bool.and_eq_true] at h
    exact h.2

theorem noPctPct_pct_head (y : Char) (r : Str)
    (h : noPctPct ('%' :: y :: r) = true) : y ≠ '%' := by
  simp only [noPctPct, Bool.and_eq_true, Bool.not_eq_true', Bool.and_eq_false_iff,
    beq_iff_eq, beq_eq_false_iff_ne] at h
  rcases h.1 with h1 | h1
  · exact absurd rfl h1
  · exact h1

theorem noPctPct_append (v Y : Str) (hv : '%' ∉ v) (hY : noPctPct Y = true) :
    noPctPct (v ++ Y) = true := by
  induction v with
  | nil => simpa
  | cons y v' ih =>
    have hy : y ≠ '%' := fun hc => hv (hc ▸ List.mem_cons_self y v')
    have hv' : '%' ∉ v' := fun hc => hv (List.mem_cons_of_mem _ hc)
    exact noPctPct_cons_of_ne y _ hy (ih hv')

theorem simul2_append_left (toks : List (Char × Str)) (a b : Str)
    (ha : '%' ∉ a) : simul2 toks (a ++ b) = a ++ simul2 toks b := by
  induction a with
  | nil => rfl
  | cons y a' ih =>
    have hy : y ≠ '%' := fun hc => ha (hc ▸ List.mem_cons_self y a')
    have ha' : '%' ∉ a' := fun hc => ha (List.mem_cons_of_mem _ hc)
    rw [List.cons_append, simul2_cons_of_ne _ _ _ hy, ih ha', List.cons_append]

theorem noPctPct_replace2 (x : Char) (v : Str) (hx : x ≠ '%') (hv : '%' ∉ v) :
    ∀ (n : Nat) (s : Str), s.length ≤ n → noPctPct s = true →
      noPctPct (replace2 x v s) = true := by
  intro n
  induction n with
  | zero =>
    intro s hlen h
    cases s with
    | nil => exact h
    | cons c rest => simp at hlen
  | succ m ih =>
    intro s hlen h
    cases s with
    | nil => exact h
    | cons c rest =>
      cases rest with
      | nil => exact h
      | cons y rest2 =>
        have hlen2 : rest2.length ≤ m := by simp at hlen; omega
        have hlen1 : (y :: rest2).length ≤ m := by simp at hlen ⊢; omega
        have h1 : noPctPct (y :: rest2) = true := noPctPct_tail _ _ h
        have h2 : noPctPct rest2 = true := noPctPct_tail _ _ h1
        by_cases hc : c = '%'
        · subst hc
          have hy : y ≠ '%' := noPctPct_pct_head y rest2 h
          by_cases hyx : y = x
          · subst hyx
            rw [replace2_pct_match]
            exact noPctPct_append v _ hv (ih rest2 hlen2 h2)
          · rw [replace2_pct_miss x v y rest2 hyx]
            have hrec : noPctPct (replace2 x v (y :: rest2)) = true :=
              ih (y :: rest2) hlen1 h1
            rw [replace2_cons_of_ne x v y rest2 hy] at hrec ⊢
            exact noPctPct_cons_head '%' _ (by simp [hy]) hrec
        · rw [replace2_cons_of_ne x v c _ hc]
          exact noPctPct_cons_of_ne c _ hc (ih (y :: rest2) hlen1 h1)

theorem simul2_cons_eq (x : Char) (v : Str) (l : List (Char × Str))
    (hx : x ≠ '%') (hv : '%' ∉ v) :
    ∀ (n : Nat) (s : Str), s.length ≤ n → noPctPct s = true →
      simul2 ((x, v) :: l) s = simul2 l (replace2 x v s) := by
  intro n
  induction n with
  | zero =>
    intro s hlen h
    cases s with
    | nil => rfl
    | cons c rest => simp at hlen
  | succ m ih =>
    intro s hlen h
    cases s with
    | nil => rfl
    | cons c rest =>
      cases rest with
      | nil => rfl
      | cons y rest2 =>
        have hlen2 : rest2.length ≤ m := by simp at hlen; omega
        have hlen1 : (y :: rest2).length ≤ m := by simp at hlen ⊢; omega
        have h1 : noPctPct (y :: rest2) = true := noPctPct_tail _ _ h
        have h2 : noPctPct rest2 = true := noPctPct_tail _ _ h1
        by_cases hc : c = '%'
        · subst hc
          have hy : y ≠ '%' := noPctPct_pct_head y rest2 h
          by_cases hyx : y = x
          · subst hyx
            rw [replace2_pct_match]
            rw [simul2_pct_found ((y, v) :: l) y rest2 (y, v)
              (List.find?_cons_of_pos l (p := fun t => t.1 == y)
                (a := (y, v)) (by simp))]
            rw [simul2_append_left l v _ hv, ih rest2 hlen2 h2]
          · have hxyf : ¬ ((fun t : Char × Str => t.1 == y) (x, v)) = true := by
              simp only [beq_iff_eq]
              exact fun hc2 => hyx hc2.symm
            rw [replace2_pct_miss x v y rest2 hyx,
              replace2_cons_of_ne x v y rest2 hy]
            cases hf : l.find? (fun t => t.1 == y) with
            | some tk =>
              rw [simul2_pct_found ((x, v) :: l) y rest2 tk
                ((List.find?_cons_of_neg l (p := fun t => t.1 == y)
                  (a := (x, v)) hxyf).trans hf)]
              rw [simul2_pct_found l y (replace2 x v rest2) tk hf]
              rw [ih rest2 hlen2 h2]
            | none =>
              rw [simul2_pct_none ((x, v) :: l) y rest2
                ((List.find?_cons_of_neg l (p := fun t => t.1 == y)
                  (a := (x, v)) hxyf).trans hf)]
              rw [simul2_pct_none l y (replace2 x v rest2) hf]
              rw [ih (y :: rest2) hlen1 h1,
                replace2_cons_of_ne x v y rest2 hy]
        · rw [simul2_cons_of_ne ((x, v) :: l) c _ hc,
            replace2_cons_of_ne x v c _ hc,
            simul2_cons_of_ne l c _ hc,
            ih (y :: rest2) hlen1 h1]

theorem seqChain_eq_simul2 :
    ∀ (l : List (Char × Str)) (s : Str),
      (∀ t ∈ l, t.1 ≠ '%') → (∀ t ∈ l, '%' ∉ t.2) → noPctPct s = true →
      seqChain l s = simul2 l s := by
  intro l
  induction l with
  | nil =>
    intro s _ _ _
    rw [seqChain, List.foldl_nil, simul2_nil_toks]
  | cons t l ih =>
    intro s hc hv hs
    obtain ⟨x, v⟩ := t
    have hx : x ≠ '%' := hc (x, v) (List.mem_cons_self _ _)
    have hv1 : '%' ∉ v := hv (x, v) (List.mem_cons_self _ _)
    have hstep : seqChain ((x, v) :: l) s = seqChain l (replace2 x v s) := by
      rw [seqChain, List.foldl_cons]
      rfl
    rw [hstep,
      ih (replace2 x v s) (fun t ht => hc t (List.mem_cons_of_mem _ ht))
        (fun t ht => hv t (List.mem_cons_of_mem _ ht))
        (noPctPct_replace2 x v hx hv1 s.length s le_rfl hs),
      ← simul2_cons_eq x v l hx hv1 s.length s le_rfl hs]

theorem pct_not_mem_pad2 (n : Int) : '%' ∉ pad2 n := by
  have h := not_mem_intToChars '%' n (by decide) (by decide)
  simp only [pad2]
  split
  · intro hm
    rcases List.mem_cons.mp hm with h0 | h0
    · exact absurd h0 (by decide)
    · exact h h0
  · exact h

theorem pct_not_mem_kitchen (d : Int) : '%' ∉ to_kitchen d := by
  simp only [to_kitchen]
  split
  · intro hm
    rcases List.mem_append.mp hm with h | h
    · rcases List.mem_append.mp h with h | h
      · exact pct_not_mem_pad2 _ h
      · rcases List.mem_cons.mp h with h | h
        · exact absurd h (by decide)
        · exact pct_not_mem_pad2 _ h
    · rcases List.mem_cons.mp h with h | h
      · exact absurd h (by decide)
      · exact pct_not_mem_pad2 _ h
  · intro hm
    rcases List.mem_append.mp hm with h | h
    · exact pct_not_mem_pad2 _ h
    · rcases List.mem_cons.mp h with h | h
      · exact absurd h (by decide)
      · exact pct_not_mem_pad2 _ h

theorem pct_not_mem_joinComma :
    ∀ ts : List Str, (∀ tag ∈ ts, '%' ∉ tag) → '%' ∉ joinComma ts
  | [] => by simp [joinComma]
  | [x] => fun h => by simpa [joinComma] using h x (by simp)
  | x :: y :: xs => fun h => by
    rw [joinComma]
    intro hm
    rcases List.mem_append.mp hm with h1 | h1
    · exact h x (by simp) h1
    · rcases List.mem_cons.mp h1 with h2 | h2
      · exact absurd h2 (by decide)
      · exact pct_not_mem_joinComma (y :: xs)
          (fun tag ht => h tag (List.mem_cons_of_mem _ ht)) h2

theorem fmtValues_token_ne (p : Pomodoro) (now : Int) :
    ∀ t ∈ p.fmtValues now, t.1 ≠ '%' := by
  intro t htv
  simp only [Pomodoro.fmtValues, List.mem_cons, List.not_mem_nil, or_false] at htv
  rcases htv with rfl | rfl | rfl | rfl | rfl | rfl | rfl | rfl <;> simp

theorem fmtValues_not_pct (p : Pomodoro) (now : Int)
    (hd : '%' ∉ p.description.getD [])
    (ht : ∀ tag ∈ p.tags.getD [], '%' ∉ tag) :
    ∀ t ∈ p.fmtValues now, '%' ∉ t.2 := by
  intro t htv
  simp only [Pomodoro.fmtValues, List.mem_cons, List.not_mem_nil, or_false] at htv
  rcases htv with rfl | rfl | rfl | rfl | rfl | rfl | rfl | rfl
  · exact hd
  · exact pct_not_mem_joinComma _ ht
  · exact pct_not_mem_kitchen _
  · exact not_mem_intToChars '%' _ (by decide) (by decide)
  · rw [rfc3339]
    exact not_mem_intToChars '%' _ (by decide) (by decide)
  · exact not_mem_intToChars '%' _ (by decide) (by decide)
  · rw [rfc3339]
    exact not_mem_intToChars '%' _ (by decide) (by decide)
  · exact not_mem_intToChars '%' _ (by decide) (by decide)

/-- C9 (amended): `Pomodoro::format` applies the eight `%`-token
replacements sequentially in source order, each pass rescanning the output
of the previous one; whenever neither the description nor any tag contains
a `%` character and the template has no two consecutive `%` characters, the
result coincides with the order-independent simultaneous substitution the
claim describes (unrecognized `%`-sequences and all other characters pass
through unchanged; the remaining six values are digit/punctuation strings
and never contain `%`). -/
theorem c9_format_simultaneous (p : Pomodoro) (f : Str) (now : Int)
    (hd : '%' ∉ p.description.getD [])
    (ht : ∀ tag ∈ p.tags.getD [], '%' ∉ tag)
    (hf : noPctPct f = true) :
    p.format f now = specFormat p f now := by
  rw [Pomodoro.format, specFormat]
  exact seqChain_eq_simul2 (p.fmtValues now) f (fmtValues_token_ne p now)
    (fmtValues_not_pct p now hd ht) hf

/-- C9 (counterexample to the claim as stated): with description `"%R"` and
template `"%d"`, sequential replacement substitutes the token text inside
the description value — `format` yields `"1500"` where the simultaneous
substitution of the claim yields `"%R"`. -/
theorem c9_counterexample :
    Pomodoro.format ⟨⟨0, 1500⟩, some (str "%R"), none⟩ (str "%d") 0 =
      str "1500" ∧
    specFormat ⟨⟨0, 1500⟩, some (str "%R"), none⟩ (str "%d") 0 = str "%R" ∧
    Pomodoro.format ⟨⟨0, 1500⟩, some (str "%R"), none⟩ (str "%d") 0 ≠
      specFormat ⟨⟨0, 1500⟩, some (str "%R"), none⟩ (str "%d") 0 := by
  refine ⟨rfl, rfl, by decide⟩

/-- Witness for C9 at a concrete session and template. -/
theorem c9_witness :
    Pomodoro.format ⟨⟨0, 1500⟩, some (str "work"), some [str "a", str "b"]⟩
        (str "%d (%t) %r left, %z stays") 0 =
      specFormat ⟨⟨0, 1500⟩, some (str "work"), some [str "a", str "b"]⟩
        (str "%d (%t) %r left, %z stays") 0 :=
  c9_format_simultaneous ⟨⟨0, 1500⟩, some (str "work"), some [str "a", str "b"]⟩
    (str "%d (%t) %r left, %z stays") 0 (by decide) (by decide) (by decide)
